import Mathlib

/-!
# Guardian agent: risk scoring, CPU tracking, entropy and trust caches

A shallow embedding of `src/native/guardian_agent.cpp`.

Conventions of the embedding:

* `DWORD` and `ULONGLONG` values are natural numbers; where the source does
  unsigned 64-bit arithmetic the result is reduced modulo `2 ^ 64` explicitly.
* `float` and `double` values are modelled by exact numbers: rationals for the
  scorer and the CPU tracker (every finite `double` is a rational), reals for
  the entropy (it needs a logarithm).
* The entropy threshold `7.2f` is compared with a `double` that can take any
  value, so it is the exact value of that `float`, `15099494 / 2 ^ 21`.  The
  weights and cutoffs `0.25f`, `0.15f`, `0.1f`, `0.7f`, `0.45f` only meet the
  32 possible sums, none of which is within rounding distance of a cutoff;
  they stand for the decimals they are written as, and the rounding of the
  arithmetic is not modelled.
* `std::wstring` is `String`.
* A function-local `static` cache is passed in and returned explicitly.
-/

namespace Guardian

/-! ## Data model (source lines 177-196, 331-338) -/

/-- One loaded module of a process (`struct ModuleInfo`). -/
structure ModuleInfo where
  name : String
  path : String
  isSigned : Bool
deriving DecidableEq, Repr

/-- The feature set of one process (`struct ProcessFeatures`). -/
structure ProcessFeatures where
  pid : Nat
  name : String
  imagePath : String
  cpuPercent : ℚ
  workingSetBytes : Nat
  privateBytes : Nat
  handleCount : Nat
  entropy : ℚ
  isSigned : Bool
  modules : List ModuleInfo
deriving DecidableEq

/-- The classification of a process (`enum class RiskLevel`). -/
inductive RiskLevel where
  | Normal
  | Suspicious
  | Malicious
deriving DecidableEq, Repr

/-- The result of scoring one process (`struct RiskReport`). -/
structure RiskReport where
  level : RiskLevel
  score : ℚ
  reason : String
deriving DecidableEq

/-! ## RiskScorer (source lines 340-412) -/

/-- `RiskScorer::kEntropyThreshold`, declared `float` with the literal `7.2f`
and promoted to `double` in the comparison with `p.entropy`: the `float`
nearest `7.2`, which is `15099494 / 2 ^ 21 = 7.19999980926513671875`. -/
def kEntropyThreshold : ℚ := 15099494 / 2 ^ 21

/-- `RiskScorer::kCpuThreshold`. -/
def kCpuThreshold : ℚ := 60.0

/-- `RiskScorer::kHandleThreshold`. -/
def kHandleThreshold : Nat := 1000

/-- `RiskScorer::kMaliciousCutoff`. -/
def kMaliciousCutoff : ℚ := 0.7

/-- `RiskScorer::kSuspiciousCutoff`. -/
def kSuspiciousCutoff : ℚ := 0.45

/-- The body of the `for` loop of `RiskScorer::ComposeReasons`: `i` is the
loop index of the first remaining reason, `joined` the text built so far. -/
def ComposeReasons.loop : List String → Nat → String → String
  | [], _, joined => joined
  | r :: rest, i, joined =>
      ComposeReasons.loop rest (i + 1) ((if i > 0 then joined ++ "; " else joined) ++ r)

/-- `RiskScorer::ComposeReasons`. -/
def ComposeReasons (reasons : List String) : String :=
  if reasons.isEmpty then "baseline" else ComposeReasons.loop reasons 0 ""

/-- The range-`for` of `RiskScorer::HasUnsignedModules` over the module list,
returning at the first unsigned module. -/
def HasUnsignedModules.loop : List ModuleInfo → Bool
  | [] => false
  | m :: rest => if !m.isSigned then true else HasUnsignedModules.loop rest

/-- `RiskScorer::HasUnsignedModules`. -/
def HasUnsignedModules (p : ProcessFeatures) : Bool :=
  HasUnsignedModules.loop p.modules

/-- `RiskScorer::Evaluate`: five rules applied in sequence to the running
`score` and `reasons`, the level taken from the running score, the reported
score capped at `1.0`. -/
def Evaluate (p : ProcessFeatures) : RiskReport := Id.run do
  let mut score : ℚ := 0.0
  let mut reasons : List String := []
  if !p.isSigned then
    score := score + 0.25
    reasons := reasons ++ ["unsigned binary"]
  if p.entropy > kEntropyThreshold then
    score := score + 0.25
    reasons := reasons ++ ["high entropy image"]
  if p.cpuPercent > kCpuThreshold then
    score := score + 0.15
    reasons := reasons ++ ["sustained CPU usage"]
  if p.handleCount > kHandleThreshold then
    score := score + 0.1
    reasons := reasons ++ ["excessive handles"]
  if HasUnsignedModules p then
    score := score + 0.15
    reasons := reasons ++ ["unsigned module loaded"]
  let level :=
    if score >= kMaliciousCutoff then RiskLevel.Malicious
    else if score >= kSuspiciousCutoff then RiskLevel.Suspicious
    else RiskLevel.Normal
  return { level := level, score := min score 1.0, reason := ComposeReasons reasons }

/-! ### The scoring table (spec section 4.5) with the thresholds of the code -/

/-- The sum of the contributions of the scoring table's rules that match `p`. -/
def contributionSum (p : ProcessFeatures) : ℚ :=
  (if p.isSigned = false then 0.25 else 0)
    + (if p.entropy > kEntropyThreshold then 0.25 else 0)
    + (if p.cpuPercent > 60.0 then 0.15 else 0)
    + (if p.handleCount > 1000 then 0.10 else 0)
    + (if ∃ m ∈ p.modules, m.isSigned = false then 0.15 else 0)

/-- The reason texts of the scoring table's rules that match `p`, in table order. -/
def matchedReasons (p : ProcessFeatures) : List String :=
  (if p.isSigned = false then ["unsigned binary"] else [])
    ++ (if p.entropy > kEntropyThreshold then ["high entropy image"] else [])
    ++ (if p.cpuPercent > 60.0 then ["sustained CPU usage"] else [])
    ++ (if p.handleCount > 1000 then ["excessive handles"] else [])
    ++ (if ∃ m ∈ p.modules, m.isSigned = false then ["unsigned module loaded"] else [])

/-- No rule of the scoring table matches `p`. -/
def noRuleMatched (p : ProcessFeatures) : Prop :=
  p.isSigned = true ∧ ¬ p.entropy > kEntropyThreshold ∧ ¬ p.cpuPercent > 60.0
    ∧ ¬ p.handleCount > 1000 ∧ ∀ m ∈ p.modules, m.isSigned = true

/-- End-to-end scenario C of the specification: unsigned binary, entropy `7.5`,
CPU `80%`, `1500` handles, one unsigned module. -/
def scenarioC : ProcessFeatures :=
  { pid := 4242, name := "packed.exe", imagePath := "C:\\Temp\\packed.exe",
    cpuPercent := 80, workingSetBytes := 0, privateBytes := 0, handleCount := 1500,
    entropy := 7.5, isSigned := false,
    modules := [{ name := "inject.dll", path := "C:\\Temp\\inject.dll", isSigned := false }] }

/-- An entropy between the threshold of the code and `7.2`:
`60397977 / 2 ^ 23 = 7.19999992847442626953125`, a value a `double` holds
exactly. -/
def gapEntropy : ℚ := 60397977 / 2 ^ 23

/-- A signed, idle process without modules whose entropy is `gapEntropy`. -/
def signedGapProcess : ProcessFeatures :=
  { pid := 1000, name := "tool.exe", imagePath := "C:\\Tools\\tool.exe",
    cpuPercent := 0, workingSetBytes := 0, privateBytes := 0, handleCount := 0,
    entropy := gapEntropy, isSigned := true, modules := [] }

/-- An unsigned process without modules, at `80%` CPU with `1500` handles,
whose entropy is `gapEntropy`. -/
def unsignedGapProcess : ProcessFeatures :=
  { pid := 1001, name := "tool.exe", imagePath := "C:\\Tools\\tool.exe",
    cpuPercent := 80, workingSetBytes := 0, privateBytes := 0, handleCount := 1500,
    entropy := gapEntropy, isSigned := false, modules := [] }

/-! ## CpuUsageTracker (source lines 57-60, 198-237) -/

/-- `FILETIME`: a 64-bit time as two `DWORD` halves. -/
structure FILETIME where
  dwLowDateTime : Nat
  dwHighDateTime : Nat
deriving DecidableEq, Repr

/-- `ToUint64`: the `ULONGLONG` whose high half is `dwHighDateTime` and whose
low half is `dwLowDateTime` (each a `DWORD`, so taken modulo `2 ^ 32`). -/
def ToUint64 (ft : FILETIME) : Nat :=
  ((ft.dwHighDateTime % 2 ^ 32) <<< 32) ||| (ft.dwLowDateTime % 2 ^ 32)

/-- Addition of two `ULONGLONG` values. -/
def u64add (a b : Nat) : Nat := (a + b) % 2 ^ 64

/-- Subtraction of two `ULONGLONG` values: it wraps around below zero. -/
def u64sub (a b : Nat) : Nat := (a % 2 ^ 64 + 2 ^ 64 - b % 2 ^ 64) % 2 ^ 64

/-- `CpuUsageTracker::CpuSnapshot`, both members value-initialised to zero. -/
structure CpuSnapshot where
  procTime : Nat := 0
  systemTime : Nat := 0
deriving DecidableEq, Repr

/-- The member `_history` of `CpuUsageTracker`: the snapshot stored for a
pid, if the map has an entry for it. -/
def History : Type := Nat → Option CpuSnapshot

/-- A tracker that has seen no process. -/
def History.empty : History := fun _ => none

/-- The reference `_history[pid]`: the stored snapshot, a value-initialised
one when the map had no entry. -/
def History.at (history : History) (pid : Nat) : CpuSnapshot :=
  (history pid).getD {}

/-- Assignment through the reference `_history[pid]`. -/
def History.assign (history : History) (pid : Nat) (s : CpuSnapshot) : History :=
  fun q => if q = pid then some s else history q

/-- `std::clamp(v, lo, hi)`. -/
def clamp (v lo hi : ℚ) : ℚ :=
  if v < lo then lo else if hi < v then hi else v

/-- What `GetProcessTimes` wrote on success: the kernel and user times. -/
structure ProcessTimes where
  kernel : FILETIME
  user : FILETIME
deriving DecidableEq, Repr

/-- What `GetSystemTimes` wrote on success. -/
structure SystemTimes where
  idle : FILETIME
  kernelTotal : FILETIME
  userTotal : FILETIME
deriving DecidableEq, Repr

/-- The `procTime` of line 215. -/
def procTimeOf (t : ProcessTimes) : Nat :=
  u64add (ToUint64 t.kernel) (ToUint64 t.user)

/-- The `systemTime` of line 216. -/
def systemTimeOf (t : SystemTimes) : Nat :=
  u64sub (u64add (ToUint64 t.kernelTotal) (ToUint64 t.userTotal)) (ToUint64 t.idle)

/-- The guard of line 219 on the snapshot `prev`: the first-sample path is
taken when it holds. -/
def Update.firstSample (prev : CpuSnapshot) : Bool :=
  prev.procTime == 0 || prev.systemTime == 0

/-- `CpuUsageTracker::Update`.  `processTimes` and `systemTimes` are the
answers of `GetProcessTimes(processHandle, ..)` and `GetSystemTimes(..)`,
`none` when the query fails.  Returns the optional percentage and the history
after the call. -/
def Update (history : History) (pid : Nat) (processTimes : Option ProcessTimes)
    (systemTimes : Option SystemTimes) : Option ℚ × History :=
  match processTimes with
  | none => (none, history)
  | some pt =>
    match systemTimes with
    | none => (none, history)
    | some st =>
      let procTime := procTimeOf pt
      let systemTime := systemTimeOf st
      let prev := history.at pid
      if Update.firstSample prev then
        (none, history.assign pid { procTime := procTime, systemTime := systemTime })
      else
        let procDelta : ℚ := (u64sub procTime prev.procTime : Nat)
        let sysDelta : ℚ := (u64sub systemTime prev.systemTime : Nat)
        let history := history.assign pid { procTime := procTime, systemTime := systemTime }
        if sysDelta ≤ 0.0 then (none, history)
        else
          let cpu := (procDelta / sysDelta) * 100.0
          (some (clamp cpu 0.0 100.0), history)

/-- A `FILETIME` holding the 64-bit value `n`. -/
def FILETIME.ofNat (n : Nat) : FILETIME :=
  { dwLowDateTime := n % 2 ^ 32, dwHighDateTime := n / 2 ^ 32 % 2 ^ 32 }

/-- Readings whose process time is `procTime` (all of it kernel time). -/
def ProcessTimes.ofNat (procTime : Nat) : ProcessTimes :=
  { kernel := FILETIME.ofNat procTime, user := FILETIME.ofNat 0 }

/-- Readings whose system busy time is `systemTime` (no idle time). -/
def SystemTimes.ofNat (systemTime : Nat) : SystemTimes :=
  { idle := FILETIME.ofNat 0, kernelTotal := FILETIME.ofNat systemTime,
    userTotal := FILETIME.ofNat 0 }

/-- A history whose snapshot for pid `7` has a zero process time and a nonzero
system busy time (a process that had used no CPU when last sampled). -/
def idleHistory : History :=
  History.empty.assign 7 { procTime := 0, systemTime := 100 }

/-- A history whose snapshot for pid `7` has both times nonzero. -/
def busyHistory : History :=
  History.empty.assign 7 { procTime := 10, systemTime := 100 }

/-- One `Update` call of a run of the tracker: the pid and what the two time
queries answer. -/
structure UpdateCall where
  pid : Nat
  processTimes : Option ProcessTimes
  systemTimes : Option SystemTimes

/-- The history after a sequence of `Update` calls. -/
def runUpdates : History → List UpdateCall → History
  | history, [] => history
  | history, c :: rest =>
      runUpdates (Update history c.pid c.processTimes c.systemTimes).2 rest

/-! ## Entropy and trust caches (source lines 53-55, 85-168) -/

/-- `kEntropySampleBytes`: only the first 256 KiB of a file are sampled. -/
def kEntropySampleBytes : Nat := 256 * 1024

/-- `kCacheLimit`. -/
def kCacheLimit : Nat := 512

/-- A byte of a file, as the `unsigned char` the source indexes `freq` with. -/
abbrev Byte : Type := Fin 256

/-- The `while` loop of `ComputeEntropy` (lines 105-111) over the bytes the
stream still holds: `freq` is the histogram and `total` the count so far. -/
def ComputeEntropy.readLoop : List Byte → (Byte → Nat) → Nat → (Byte → Nat) × Nat
  | [], freq, total => (freq, total)
  | byte :: rest, freq, total =>
      if total < kEntropySampleBytes then
        ComputeEntropy.readLoop rest (fun b => if b = byte then freq b + 1 else freq b)
          (total + 1)
      else (freq, total)

/-- The `for` loop of `ComputeEntropy` (lines 115-121) over the 256 buckets,
over the real numbers, `std::log2` being the logarithm to base two. -/
noncomputable def ComputeEntropy.entropyLoop (freq : Byte → Nat) (total : Nat) : ℝ :=
  (List.finRange 256).foldl
    (fun entropy i =>
      let count := freq i
      if count = 0 then entropy
      else
        let p : ℝ := (count : ℝ) / (total : ℝ)
        entropy - p * Real.logb 2 p)
    0.0

/-- The histogram and entropy computation of `ComputeEntropy` (lines 98-121)
on the content of an opened file. -/
noncomputable def ComputeEntropy.ofBytes (bytes : List Byte) : ℝ :=
  let (freq, total) := ComputeEntropy.readLoop bytes (fun _ => 0) 0
  if total = 0 then 0.0 else ComputeEntropy.entropyLoop freq total

/-- A function-local `static std::unordered_map<std::wstring, V> cache`: its
entries, with distinct keys, in the map's iteration order. -/
abbrev Cache (V : Type) : Type := List (String × V)

/-- The empty cache a process starts with. -/
def Cache.empty {V : Type} : Cache V := []

/-- `cache.size()`. -/
def Cache.size {V : Type} (cache : Cache V) : Nat := List.length cache

/-- `cache.empty()`. -/
def Cache.isEmpty {V : Type} (cache : Cache V) : Bool := List.isEmpty cache

/-- `cache.find(path)`: the cached value, `none` for `cache.end()`. -/
def Cache.find {V : Type} : Cache V → String → Option V
  | [], _ => none
  | (key, value) :: rest, path => if key = path then some value else Cache.find rest path

/-- `cache.erase(cache.begin())`.  The iteration order of an `unordered_map`
is unspecified, so which entry `begin()` designates is an input: `begin` is
its position among the entries. -/
def Cache.eraseBegin {V : Type} (cache : Cache V) (begin : Nat) : Cache V :=
  List.eraseIdx cache (begin % cache.size)

/-- `cache[path] = value`: overwrite the entry of `path`, or add one. -/
def Cache.assign {V : Type} : Cache V → String → V → Cache V
  | [], path, value => [(path, value)]
  | (key, old) :: rest, path, value =>
      if key = path then (key, value) :: rest
      else (key, old) :: Cache.assign rest path value

/-- The cache-insert step shared by `ComputeEntropy` (lines 123-127) and
`IsAuthenticodeSigned` (lines 162-166). -/
def Cache.store {V : Type} (cache : Cache V) (path : String) (value : V) (begin : Nat) :
    Cache V :=
  let cache :=
    if cache.size ≥ kCacheLimit ∧ !cache.isEmpty then cache.eraseBegin begin else cache
  cache.assign path value

/-- What one call returns, the cache after it, and how many calls it made to
its provider (opening the file, `WinVerifyTrust`). -/
structure CallResult (V : Type) where
  value : V
  cache : Cache V
  providerCalls : Nat

/-- `ComputeEntropy`.  `openFile path` is the content of the file when
`std::ifstream` opens it, `none` when it does not. -/
noncomputable def ComputeEntropy (cache : Cache ℝ) (path : String)
    (openFile : String → Option (List Byte)) (begin : Nat) : CallResult ℝ :=
  match cache.find path with
  | some cached => { value := cached, cache := cache, providerCalls := 0 }
  | none =>
    match openFile path with
    | none => { value := 0.0, cache := cache, providerCalls := 1 }
    | some bytes =>
      let (freq, total) := ComputeEntropy.readLoop bytes (fun _ => 0) 0
      if total = 0 then { value := 0.0, cache := cache, providerCalls := 1 }
      else
        let entropy := ComputeEntropy.entropyLoop freq total
        { value := entropy, cache := cache.store path entropy begin, providerCalls := 1 }

/-- `ERROR_SUCCESS`. -/
def ERROR_SUCCESS : Int := 0

/-- `IsAuthenticodeSigned`.  `WinVerifyTrust path` is the status of the
verifying call for the file; the closing call's status is ignored. -/
def IsAuthenticodeSigned (cache : Cache Bool) (path : String)
    (WinVerifyTrust : String → Int) (begin : Nat) : CallResult Bool :=
  match cache.find path with
  | some cached => { value := cached, cache := cache, providerCalls := 0 }
  | none =>
    let status := WinVerifyTrust path
    let signedOk := status == ERROR_SUCCESS
    { value := signedOk, cache := cache.store path signedOk begin, providerCalls := 2 }

/-- One `ComputeEntropy` call of a run: its path, what the file system
answers, and the entry `begin()` designates should the call evict. -/
structure EntropyCall where
  path : String
  openFile : String → Option (List Byte)
  begin : Nat

/-- One `IsAuthenticodeSigned` call of a run. -/
structure TrustCall where
  path : String
  WinVerifyTrust : String → Int
  begin : Nat

/-- The entropy cache after a sequence of `ComputeEntropy` calls. -/
noncomputable def runEntropyCalls : Cache ℝ → List EntropyCall → Cache ℝ
  | cache, [] => cache
  | cache, c :: rest =>
      runEntropyCalls (ComputeEntropy cache c.path c.openFile c.begin).cache rest

/-- The trust cache after a sequence of `IsAuthenticodeSigned` calls. -/
def runTrustCalls : Cache Bool → List TrustCall → Cache Bool
  | cache, [] => cache
  | cache, c :: rest =>
      runTrustCalls (IsAuthenticodeSigned cache c.path c.WinVerifyTrust c.begin).cache rest

/-- The path of the `i`-th image of a run over distinct files. -/
def fillPath (i : Nat) : String := String.mk (List.replicate (i + 1) 'x')

/-- `IsAuthenticodeSigned` calls for `n` distinct signed files. -/
def fillCalls (n : Nat) : List TrustCall :=
  (List.range n).map fun i =>
    { path := fillPath i, WinVerifyTrust := fun _ => ERROR_SUCCESS, begin := 0 }

/-- The trust cache after verifying 512 distinct files from an empty cache. -/
def fullTrustCache : Cache Bool := runTrustCalls Cache.empty (fillCalls 512)

/-! # Theorems -/

/-! ## Theorems: RiskScorer -/

theorem HasUnsignedModules_loop_iff (ms : List ModuleInfo) :
    HasUnsignedModules.loop ms = true ↔ ∃ m ∈ ms, m.isSigned = false := by
  induction ms with
  | nil => simp [HasUnsignedModules.loop]
  | cons m rest ih =>
    cases h : m.isSigned <;> simp [HasUnsignedModules.loop, h, ih]

theorem HasUnsignedModules_iff (p : ProcessFeatures) :
    HasUnsignedModules p = true ↔ ∃ m ∈ p.modules, m.isSigned = false :=
  HasUnsignedModules_loop_iff p.modules

/-- The threshold of the code in decimal. -/
theorem kEntropyThreshold_eq : kEntropyThreshold = 7.19999980926513671875 := by
  norm_num [kEntropyThreshold]

/-- The threshold is the `float` nearest `7.2`: a multiple of `2 ^ (-21)`, the
spacing of `float` between `4` and `8`, less than half a spacing below `7.2`. -/
theorem kEntropyThreshold_nearest :
    kEntropyThreshold = 15099494 / 2 ^ 21 ∧ kEntropyThreshold < 7.2
    ∧ 7.2 - kEntropyThreshold < 1 / 2 ^ 22 := by
  norm_num [kEntropyThreshold]

/-- The entropy `gapEntropy` lies above the threshold of the code and below `7.2`. -/
theorem gapEntropy_between : kEntropyThreshold < gapEntropy ∧ gapEntropy < 7.2 := by
  norm_num [kEntropyThreshold, gapEntropy]

theorem contributionSum_signedGapProcess : contributionSum signedGapProcess = 0.25 := by
  have h : signedGapProcess.entropy > kEntropyThreshold := gapEntropy_between.1
  unfold contributionSum
  rw [if_pos h]
  norm_num [signedGapProcess]

theorem matchedReasons_signedGapProcess :
    matchedReasons signedGapProcess = ["high entropy image"] := by
  have h : signedGapProcess.entropy > kEntropyThreshold := gapEntropy_between.1
  unfold matchedReasons
  rw [if_pos h]
  norm_num [signedGapProcess]

theorem contributionSum_unsignedGapProcess : contributionSum unsignedGapProcess = 0.75 := by
  have h : unsignedGapProcess.entropy > kEntropyThreshold := gapEntropy_between.1
  unfold contributionSum
  rw [if_pos h]
  norm_num [unsignedGapProcess]

/-- The sequential accumulation of `Evaluate` in closed form. -/
theorem Evaluate_eq (p : ProcessFeatures) :
    Evaluate p =
      { level :=
          if contributionSum p ≥ kMaliciousCutoff then RiskLevel.Malicious
          else if contributionSum p ≥ kSuspiciousCutoff then RiskLevel.Suspicious
          else RiskLevel.Normal
        score := min (contributionSum p) 1.0
        reason := ComposeReasons (matchedReasons p) } := by
  have hm := HasUnsignedModules_iff p
  by_cases h1 : p.isSigned = false <;> by_cases h2 : p.entropy > kEntropyThreshold <;>
    by_cases h3 : p.cpuPercent > 60.0 <;> by_cases h4 : p.handleCount > 1000 <;>
    by_cases h5 : (∃ m ∈ p.modules, m.isSigned = false) <;>
    (have h5' := h5; rw [← hm] at h5') <;>
    simp only [Evaluate, contributionSum, matchedReasons, kCpuThreshold,
      kHandleThreshold, h1, h2, h3, h4, h5, h5', Id.run, ↓reduceIte, pure, bind,
      Bool.not_false, Bool.not_true, Bool.false_eq_true, not_false_eq_true,
      List.nil_append, List.append_nil, List.cons_append, ge_iff_le, gt_iff_lt,
      RiskReport.mk.injEq]
  all_goals norm_num [kMaliciousCutoff, kSuspiciousCutoff]

theorem ComposeReasons_loop_succ (rest : List String) (i : Nat) (joined : String) :
    ComposeReasons.loop rest (i + 1) joined = String.intercalate.go joined "; " rest := by
  induction rest generalizing i joined with
  | nil => simp [ComposeReasons.loop, String.intercalate.go]
  | cons r rest ih => simp [ComposeReasons.loop, String.intercalate.go, ih]

/-- The loop of `ComposeReasons` joins with the separator `"; "`. -/
theorem ComposeReasons_eq (reasons : List String) :
    ComposeReasons reasons
      = if reasons = [] then "baseline" else String.intercalate "; " reasons := by
  cases reasons with
  | nil => simp [ComposeReasons]
  | cons r rest =>
    simp [ComposeReasons, ComposeReasons.loop, String.intercalate, ComposeReasons_loop_succ]

theorem matchedReasons_eq_nil_iff (p : ProcessFeatures) :
    matchedReasons p = [] ↔ noRuleMatched p := by
  unfold matchedReasons noRuleMatched
  by_cases h1 : p.isSigned = false <;> by_cases h2 : p.entropy > kEntropyThreshold <;>
    by_cases h3 : p.cpuPercent > 60.0 <;> by_cases h4 : p.handleCount > 1000 <;>
    by_cases h5 : (∃ m ∈ p.modules, m.isSigned = false) <;>
    simp only [h1, h2, h3, h4, h5, ↓reduceIte] <;> simp_all

theorem contributionSum_eq_zero_iff (p : ProcessFeatures) :
    contributionSum p = 0 ↔ noRuleMatched p := by
  unfold contributionSum noRuleMatched
  by_cases h1 : p.isSigned = false <;> by_cases h2 : p.entropy > kEntropyThreshold <;>
    by_cases h3 : p.cpuPercent > 60.0 <;> by_cases h4 : p.handleCount > 1000 <;>
    by_cases h5 : (∃ m ∈ p.modules, m.isSigned = false) <;>
    simp only [h1, h2, h3, h4, h5, ↓reduceIte] <;> norm_num <;> simp_all

/-- No joined text of matched reasons is the word `"baseline"`. -/
theorem intercalate_matchedReasons_ne_baseline (p : ProcessFeatures)
    (h : matchedReasons p ≠ []) :
    String.intercalate "; " (matchedReasons p) ≠ "baseline" := by
  revert h
  unfold matchedReasons
  by_cases h1 : p.isSigned = false <;> by_cases h2 : p.entropy > kEntropyThreshold <;>
    by_cases h3 : p.cpuPercent > 60.0 <;> by_cases h4 : p.handleCount > 1000 <;>
    by_cases h5 : (∃ m ∈ p.modules, m.isSigned = false) <;>
    simp only [h1, h2, h3, h4, h5, ↓reduceIte] <;> decide

/-- C1 as stated fails: for the signed process with entropy
`7.19999992847442626953125`, which is not above `7.2`, the score is `0.25`
and not the `min(S, 1.0) = 0` of the claim's table. -/
theorem signedGapProcess_score_ne_claimed :
    (Evaluate signedGapProcess).score = 0.25
    ∧ (Evaluate signedGapProcess).score
      ≠ min ((if signedGapProcess.isSigned = false then 0.25 else 0)
            + (if signedGapProcess.entropy > 7.2 then 0.25 else 0)
            + (if signedGapProcess.cpuPercent > 60.0 then 0.15 else 0)
            + (if signedGapProcess.handleCount > 1000 then 0.10 else 0)
            + (if ∃ m ∈ signedGapProcess.modules, m.isSigned = false then 0.15 else 0))
          1.0 := by
  have hs : (Evaluate signedGapProcess).score = 0.25 := by
    rw [Evaluate_eq]
    simp only [contributionSum_signedGapProcess]
    norm_num
  have hno : ¬ signedGapProcess.entropy > 7.2 := not_lt.mpr (le_of_lt gapEntropy_between.2)
  refine ⟨hs, ?_⟩
  rw [hs, if_neg hno]
  norm_num [signedGapProcess]

/-- C1 (amended): for every `ProcessFeatures p` the score of `Evaluate p` is
`min(S, 1.0)`, `S` being the sum of `0.25` if `p` is not signed, `0.25` if
`p.entropy > 7.19999980926513671875` (the value of the `float` constant
`7.2f`), `0.15` if `p.cpuPercent > 60.0`, `0.10` if `p.handleCount > 1000` and
`0.15` if some module of `p` is not signed. -/
theorem Evaluate_score_eq_min_sum (p : ProcessFeatures) :
    (Evaluate p).score
      = min ((if p.isSigned = false then 0.25 else 0)
            + (if p.entropy > 7.19999980926513671875 then 0.25 else 0)
            + (if p.cpuPercent > 60.0 then 0.15 else 0)
            + (if p.handleCount > 1000 then 0.10 else 0)
            + (if ∃ m ∈ p.modules, m.isSigned = false then 0.15 else 0)) 1.0 := by
  rw [Evaluate_eq, ← kEntropyThreshold_eq]
  rfl

/-- C2: for every `ProcessFeatures p` the level of `Evaluate p` is determined
by the score of the same report: Malicious iff `score >= 0.70`, Suspicious iff
`0.45 <= score < 0.70`, Normal iff `score < 0.45`. -/
theorem Evaluate_level_iff_score (p : ProcessFeatures) :
    ((Evaluate p).level = RiskLevel.Malicious ↔ (Evaluate p).score ≥ 0.70)
    ∧ ((Evaluate p).level = RiskLevel.Suspicious
        ↔ 0.45 ≤ (Evaluate p).score ∧ (Evaluate p).score < 0.70)
    ∧ ((Evaluate p).level = RiskLevel.Normal ↔ (Evaluate p).score < 0.45) := by
  rw [Evaluate_eq]
  simp only [kMaliciousCutoff, kSuspiciousCutoff]
  generalize contributionSum p = s
  by_cases h1 : s ≥ 0.7 <;> by_cases h2 : s ≥ 0.45 <;>
    simp only [h1, h2, ↓reduceIte, ge_iff_le, le_min_iff, min_lt_iff] <;>
    norm_num at h1 h2 ⊢
  all_goals simp_all
  all_goals linarith

/-- C3 as stated fails: for the signed idle process with entropy
`7.19999992847442626953125` no rule of the claim's table matches (the entropy
is not above `7.2`), yet the reason is `"high entropy image"`, not
`"baseline"`, and the score is not `0`. -/
theorem signedGapProcess_reason_ne_baseline :
    (signedGapProcess.isSigned = true ∧ ¬ signedGapProcess.entropy > 7.2
      ∧ ¬ signedGapProcess.cpuPercent > 60.0 ∧ ¬ signedGapProcess.handleCount > 1000
      ∧ ∀ m ∈ signedGapProcess.modules, m.isSigned = true)
    ∧ (Evaluate signedGapProcess).reason = "high entropy image"
    ∧ (Evaluate signedGapProcess).reason ≠ "baseline"
    ∧ (Evaluate signedGapProcess).score ≠ 0 := by
  have hno : ¬ signedGapProcess.entropy > 7.2 := not_lt.mpr (le_of_lt gapEntropy_between.2)
  have hr : (Evaluate signedGapProcess).reason = "high entropy image" := by
    rw [Evaluate_eq]
    simp only [matchedReasons_signedGapProcess]
    rfl
  refine ⟨⟨rfl, hno, by norm_num [signedGapProcess], by norm_num [signedGapProcess],
    by simp [signedGapProcess]⟩, hr, ?_, ?_⟩
  · rw [hr]; decide
  · rw [Evaluate_eq]
    simp only [contributionSum_signedGapProcess]
    norm_num

/-- C3 (amended): for every `ProcessFeatures p` the reason of `Evaluate p` is
the texts of the matched rules in table order joined with `"; "`, or
`"baseline"` when none matched; it is `"baseline"` iff no rule matched, which
holds iff the score is `0`.  The high-entropy rule matches when `p.entropy` is
above `kEntropyThreshold = 7.19999980926513671875`, the value of `7.2f`. -/
theorem Evaluate_reason_joined (p : ProcessFeatures) :
    (Evaluate p).reason
        = (if matchedReasons p = [] then "baseline"
           else String.intercalate "; " (matchedReasons p))
    ∧ ((Evaluate p).reason = "baseline" ↔ noRuleMatched p)
    ∧ (noRuleMatched p ↔ (Evaluate p).score = 0) := by
  rw [Evaluate_eq]
  simp only [ComposeReasons_eq]
  refine ⟨trivial, ?_, ?_⟩
  · rw [← matchedReasons_eq_nil_iff]
    by_cases h : matchedReasons p = []
    · simp [h]
    · simp [h, intercalate_matchedReasons_ne_baseline p h]
  · rw [← contributionSum_eq_zero_iff]
    constructor
    · intro h; rw [h]; norm_num
    · intro h
      rcases min_choice (contributionSum p) 1.0 with h' | h'
      · rw [h'] at h; exact h
      · rw [h'] at h; norm_num at h

theorem contributionSum_scenario (p : ProcessFeatures) (hs : p.isSigned = false)
    (he : p.entropy = 7.5) (hc : p.cpuPercent = 80) (hh : p.handleCount = 1500)
    (hm : ∃ m ∈ p.modules, m.isSigned = false) : contributionSum p = 0.9 := by
  unfold contributionSum
  rw [if_pos hs, if_pos (by rw [he]; norm_num [kEntropyThreshold]),
    if_pos (by rw [hc]; norm_num), if_pos (by rw [hh]; norm_num), if_pos hm]
  norm_num

/-- C4 as stated fails: on scenario C the score is not `1.0`. -/
theorem scenarioC_score_ne_one :
    ¬ ((Evaluate scenarioC).score = 1.0
        ∧ (Evaluate scenarioC).level = RiskLevel.Malicious) := by
  have h : contributionSum scenarioC = 0.9 :=
    contributionSum_scenario scenarioC rfl (by norm_num [scenarioC]) rfl rfl
      ⟨_, List.mem_singleton.mpr rfl, rfl⟩
  rw [Evaluate_eq]
  simp only [h]
  norm_num

/-- C4 (amended): for a `ProcessFeatures` with `isSigned = false`,
`entropy = 7.5`, `cpuPercent = 80`, `handleCount = 1500` and a module list
containing an unsigned module, `Evaluate` returns score `0.90` (the sum of all
five contributions, below the cap) and level Malicious. -/
theorem Evaluate_scenarioC (p : ProcessFeatures) (hs : p.isSigned = false)
    (he : p.entropy = 7.5) (hc : p.cpuPercent = 80) (hh : p.handleCount = 1500)
    (hm : ∃ m ∈ p.modules, m.isSigned = false) :
    (Evaluate p).score = 0.90 ∧ (Evaluate p).level = RiskLevel.Malicious := by
  rw [Evaluate_eq]
  simp only [contributionSum_scenario p hs he hc hh hm, kMaliciousCutoff]
  norm_num

theorem Evaluate_scenarioC_witness :
    (Evaluate scenarioC).score = 0.90 ∧ (Evaluate scenarioC).level = RiskLevel.Malicious :=
  Evaluate_scenarioC scenarioC rfl (by norm_num [scenarioC]) rfl rfl
    ⟨_, List.mem_singleton.mpr rfl, rfl⟩

/-- The five weights of the scoring table sum to at most `0.90`. -/
theorem weights_sum_le (a b c d e : Prop) [Decidable a] [Decidable b] [Decidable c]
    [Decidable d] [Decidable e] :
    (if a then (0.25 : ℚ) else 0) + (if b then 0.25 else 0) + (if c then 0.15 else 0)
      + (if d then 0.10 else 0) + (if e then 0.15 else 0) ≤ 0.90 := by
  split_ifs <;> norm_num

/-- A sum of weights reaching the Malicious cutoff contains both `0.25`
weights and at least two of the other three. -/
theorem weights_sum_ge_cutoff (a b c d e : Prop) [Decidable a] [Decidable b] [Decidable c]
    [Decidable d] [Decidable e]
    (h : (0.7 : ℚ) ≤ (if a then (0.25 : ℚ) else 0) + (if b then 0.25 else 0)
      + (if c then 0.15 else 0) + (if d then 0.10 else 0) + (if e then 0.15 else 0)) :
    a ∧ b ∧ ((c ∧ d) ∨ (c ∧ e) ∨ (d ∧ e)) := by
  by_cases ha : a <;> by_cases hb : b <;> by_cases hc : c <;> by_cases hd : d <;>
    by_cases he : e <;> simp only [ha, hb, hc, hd, he, ↓reduceIte] at h <;>
    first
      | (norm_num at h; done)
      | simp [ha, hb, hc, hd, he]

/-- C11 as stated fails: the unsigned process at `80%` CPU with `1500` handles
and entropy `7.19999992847442626953125` is classified Malicious (score
`0.75`) although its entropy is not above `7.2`. -/
theorem unsignedGapProcess_malicious :
    (Evaluate unsignedGapProcess).level = RiskLevel.Malicious
    ∧ (Evaluate unsignedGapProcess).score = 0.75
    ∧ ¬ unsignedGapProcess.entropy > 7.2 := by
  have hno : ¬ unsignedGapProcess.entropy > 7.2 :=
    not_lt.mpr (le_of_lt gapEntropy_between.2)
  refine ⟨?_, ?_, hno⟩
  · rw [Evaluate_eq]
    simp only [contributionSum_unsignedGapProcess, kMaliciousCutoff]
    norm_num
  · rw [Evaluate_eq]
    simp only [contributionSum_unsignedGapProcess]
    norm_num

/-- C11 (amended): for every `ProcessFeatures p`, if `Evaluate p` has level
Malicious then `p` is not signed, `p.entropy > 7.19999980926513671875` (the
value of the `float` constant `7.2f`) and at least two of the three remaining
rules match; so a process whose main image is signed is never classified
Malicious; the score never exceeds `0.90`, and the cap `min(sum, 1.0)` never
changes it: the score is the sum of the contributions. -/
theorem Malicious_requires_unsigned_high_entropy (p : ProcessFeatures) :
    ((Evaluate p).level = RiskLevel.Malicious →
        p.isSigned = false ∧ p.entropy > 7.19999980926513671875
        ∧ ((p.cpuPercent > 60.0 ∧ p.handleCount > 1000)
            ∨ (p.cpuPercent > 60.0 ∧ ∃ m ∈ p.modules, m.isSigned = false)
            ∨ (p.handleCount > 1000 ∧ ∃ m ∈ p.modules, m.isSigned = false)))
    ∧ (p.isSigned = true → (Evaluate p).level ≠ RiskLevel.Malicious)
    ∧ (Evaluate p).score ≤ 0.90
    ∧ (Evaluate p).score
        = (if p.isSigned = false then 0.25 else 0)
          + (if p.entropy > 7.19999980926513671875 then 0.25 else 0)
          + (if p.cpuPercent > 60.0 then 0.15 else 0)
          + (if p.handleCount > 1000 then 0.10 else 0)
          + (if ∃ m ∈ p.modules, m.isSigned = false then 0.15 else 0) := by
  have hle : contributionSum p ≤ 0.90 := weights_sum_le _ _ _ _ _
  have hmal : (Evaluate p).level = RiskLevel.Malicious → (0.7 : ℚ) ≤ contributionSum p := by
    rw [Evaluate_eq]
    simp only [kMaliciousCutoff, ge_iff_le]
    intro h
    by_contra hlt
    rw [if_neg hlt] at h
    split_ifs at h
  have hscore : (Evaluate p).score = contributionSum p := by
    rw [Evaluate_eq]
    exact min_eq_left (le_trans hle (by norm_num))
  have hneed : (Evaluate p).level = RiskLevel.Malicious →
      p.isSigned = false ∧ p.entropy > kEntropyThreshold
      ∧ ((p.cpuPercent > 60.0 ∧ p.handleCount > 1000)
          ∨ (p.cpuPercent > 60.0 ∧ ∃ m ∈ p.modules, m.isSigned = false)
          ∨ (p.handleCount > 1000 ∧ ∃ m ∈ p.modules, m.isSigned = false)) :=
    fun h => weights_sum_ge_cutoff _ _ _ _ _ (hmal h)
  rw [← kEntropyThreshold_eq]
  refine ⟨hneed, ?_, ?_, ?_⟩
  · intro hsigned hlevel
    rw [(hneed hlevel).1] at hsigned
    exact Bool.noConfusion hsigned
  · rw [hscore]; exact hle
  · rw [hscore]; rfl

/-- C11 (amended) on scenario C, which is classified Malicious. -/
theorem Malicious_requires_unsigned_high_entropy_witness :
    scenarioC.isSigned = false ∧ scenarioC.entropy > 7.19999980926513671875
    ∧ ((scenarioC.cpuPercent > 60.0 ∧ scenarioC.handleCount > 1000)
        ∨ (scenarioC.cpuPercent > 60.0 ∧ ∃ m ∈ scenarioC.modules, m.isSigned = false)
        ∨ (scenarioC.handleCount > 1000 ∧ ∃ m ∈ scenarioC.modules, m.isSigned = false)) :=
  (Malicious_requires_unsigned_high_entropy scenarioC).1 (by
    rw [Evaluate_eq]
    simp only [contributionSum_scenario scenarioC rfl (by norm_num [scenarioC]) rfl rfl
      ⟨_, List.mem_singleton.mpr rfl, rfl⟩, kMaliciousCutoff]
    norm_num)

/-! ## Theorems: CpuUsageTracker -/

theorem ToUint64_ofNat (n : Nat) (h : n < 2 ^ 64) : ToUint64 (FILETIME.ofNat n) = n := by
  unfold ToUint64 FILETIME.ofNat
  simp only [Nat.mod_mod]
  rw [Nat.shiftLeft_eq, Nat.mul_comm,
    ← Nat.mul_add_lt_is_or (Nat.mod_lt _ (by norm_num)) (n / 2 ^ 32 % 2 ^ 32)]
  omega

/-- Every 64-bit process time is the `procTime` of some successful reading. -/
theorem procTimeOf_ofNat (n : Nat) (h : n < 2 ^ 64) :
    procTimeOf (ProcessTimes.ofNat n) = n := by
  unfold procTimeOf ProcessTimes.ofNat u64add
  rw [ToUint64_ofNat n h, ToUint64_ofNat 0 (by norm_num)]
  omega

/-- Every 64-bit system busy time is the `systemTime` of some successful reading. -/
theorem systemTimeOf_ofNat (n : Nat) (h : n < 2 ^ 64) :
    systemTimeOf (SystemTimes.ofNat n) = n := by
  unfold systemTimeOf SystemTimes.ofNat u64add u64sub
  rw [ToUint64_ofNat n h, ToUint64_ofNat 0 (by norm_num)]
  omega

theorem procTimeOf_lt (t : ProcessTimes) : procTimeOf t < 2 ^ 64 :=
  Nat.mod_lt _ (by norm_num)

theorem systemTimeOf_lt (t : SystemTimes) : systemTimeOf t < 2 ^ 64 :=
  Nat.mod_lt _ (by norm_num)

theorem clamp_bounds (v lo hi : ℚ) (h : lo ≤ hi) : lo ≤ clamp v lo hi ∧ clamp v lo hi ≤ hi := by
  unfold clamp
  split_ifs with h1 h2
  · exact ⟨le_refl _, h⟩
  · exact ⟨h, le_refl _⟩
  · exact ⟨not_lt.mp h1, not_lt.mp h2⟩

theorem History.at_of_none (history : History) (pid : Nat) (h : history pid = none) :
    history.at pid = {} := by
  simp [History.at, h]

theorem History.at_of_some (history : History) (pid : Nat) (s : CpuSnapshot)
    (h : history pid = some s) : history.at pid = s := by
  simp [History.at, h]

theorem Update.firstSample_iff (prev : CpuSnapshot) :
    Update.firstSample prev = true ↔ (prev.procTime = 0 ∨ prev.systemTime = 0) := by
  simp [Update.firstSample]

/-- Whenever both queries succeed, the history entry for `pid` after `Update`
is exactly the new pair of times. -/
theorem Update_history_replaced (history : History) (pid : Nat) (pt : ProcessTimes)
    (st : SystemTimes) :
    (Update history pid (some pt) (some st)).2 pid
      = some { procTime := procTimeOf pt, systemTime := systemTimeOf st } := by
  unfold Update
  simp only
  split_ifs <;> simp [History.assign]

/-- A failed query leaves the history untouched and yields no value. -/
theorem Update_query_failed (history : History) (pid : Nat) (processTimes : Option ProcessTimes)
    (systemTimes : Option SystemTimes) (h : processTimes = none ∨ systemTimes = none) :
    Update history pid processTimes systemTimes = (none, history) := by
  unfold Update
  rcases h with h | h
  · subst h; rfl
  · subst h; cases processTimes <;> rfl

/-- An unchanged system busy time yields no value. -/
theorem Update_equal_system_time (history : History) (pid : Nat) (pt : ProcessTimes)
    (st : SystemTimes) (h : (history.at pid).systemTime = systemTimeOf st) :
    (Update history pid (some pt) (some st)).1 = none := by
  have hlt := systemTimeOf_lt st
  unfold Update
  simp only
  split_ifs with h1 h2
  · rfl
  · rfl
  · exfalso
    apply h2
    rw [h]
    norm_num [u64sub]

/-- An `Update` for one pid leaves the entries of all other pids as they are. -/
theorem Update_other_pid (history : History) (pid other : Nat)
    (processTimes : Option ProcessTimes) (systemTimes : Option SystemTimes)
    (h : other ≠ pid) :
    (Update history pid processTimes systemTimes).2 other = history other := by
  unfold Update
  cases processTimes with
  | none => rfl
  | some pt =>
    cases systemTimes with
    | none => rfl
    | some st =>
      simp only
      split_ifs <;> simp [History.assign, h]

/-- A pid no call of a run was for has no entry after the run, when it had
none before. -/
theorem runUpdates_absent (calls : List UpdateCall) (history : History) (pid : Nat)
    (h : history pid = none) (hcalls : ∀ c ∈ calls, c.pid ≠ pid) :
    runUpdates history calls pid = none := by
  induction calls generalizing history with
  | nil => exact h
  | cons c rest ih =>
    apply ih
    · rw [Update_other_pid history c.pid pid c.processTimes c.systemTimes
        (fun e => hcalls c (List.mem_cons_self _ _) e.symm)]
      exact h
    · exact fun c' hc' => hcalls c' (List.mem_cons_of_mem _ hc')

/-- C5: every value `Update` returns lies in `[0, 100]`, and `Update` for a pid
without an entry in the history returns no value; so a tracker starting from
the empty history yields no percentage on the first `Update` for any pid,
whatever calls for other pids came before. -/
theorem Update_value_bounds (history : History) (pid : Nat)
    (processTimes : Option ProcessTimes) (systemTimes : Option SystemTimes) :
    (∀ v, (Update history pid processTimes systemTimes).1 = some v → 0 ≤ v ∧ v ≤ 100)
    ∧ (history pid = none → (Update history pid processTimes systemTimes).1 = none)
    ∧ (∀ calls : List UpdateCall, (∀ c ∈ calls, c.pid ≠ pid) →
        (Update (runUpdates History.empty calls) pid processTimes systemTimes).1 = none) := by
  have key : ∀ h : History, h pid = none →
      (Update h pid processTimes systemTimes).1 = none := by
    intro h hn
    unfold Update
    cases processTimes with
    | none => rfl
    | some pt =>
      cases systemTimes with
      | none => rfl
      | some st => simp [History.at_of_none h pid hn, Update.firstSample]
  refine ⟨?_, key history,
    fun calls hcalls => key _ (runUpdates_absent calls History.empty pid rfl hcalls)⟩
  intro v hv
  unfold Update at hv
  cases processTimes with
  | none => simp at hv
  | some pt =>
    cases systemTimes with
    | none => simp at hv
    | some st =>
      simp only at hv
      split_ifs at hv with h1 h2
      simp only [Option.some.injEq] at hv
      have := clamp_bounds
        ((u64sub (procTimeOf pt) (history.at pid).procTime : ℚ)
          / (u64sub (systemTimeOf st) (history.at pid).systemTime : ℚ) * 100.0) 0.0 100.0
        (by norm_num)
      rw [hv] at this
      norm_num at this
      exact this

/-- A second sample with both times advanced yields a percentage: here `10%`. -/
theorem Update_second_sample_example :
    (Update busyHistory 7 (some (ProcessTimes.ofNat 20)) (some (SystemTimes.ofNat 200))).1
      = some 10 := by
  have hp : procTimeOf (ProcessTimes.ofNat 20) = 20 := procTimeOf_ofNat 20 (by norm_num)
  have hs : systemTimeOf (SystemTimes.ofNat 200) = 200 := systemTimeOf_ofNat 200 (by norm_num)
  unfold Update
  simp only [hp, hs]
  norm_num [busyHistory, History.at, History.assign, History.empty, Update.firstSample,
    u64sub, clamp]

/-- C6 as stated fails: a stored snapshot with `procTime = 0` and
`systemTime = 100` is not "both zero", yet the next `Update` takes the
first-sample path and returns no percentage although the system busy time
advanced from `100` to `200`. -/
theorem Update_zero_procTime_first_sample :
    ¬ (Update.firstSample (idleHistory.at 7) = true
        ↔ (idleHistory 7 = none
            ∨ ∃ s, idleHistory 7 = some s ∧ s.procTime = 0 ∧ s.systemTime = 0))
    ∧ (Update idleHistory 7 (some (ProcessTimes.ofNat 20)) (some (SystemTimes.ofNat 200))).1
        = none
    ∧ (Update idleHistory 7 (some (ProcessTimes.ofNat 20)) (some (SystemTimes.ofNat 200))).1
        ≠ some (clamp (100 * (((20 : ℚ) - 0) / ((200 : ℚ) - 100))) 0 100) := by
  have hi : idleHistory 7 = some { procTime := 0, systemTime := 100 } := by
    simp [idleHistory, History.assign]
  have hat : idleHistory.at 7 = { procTime := 0, systemTime := 100 } :=
    History.at_of_some _ _ _ hi
  have hf : Update.firstSample (idleHistory.at 7) = true := by
    rw [hat]; rfl
  have hu : (Update idleHistory 7 (some (ProcessTimes.ofNat 20))
      (some (SystemTimes.ofNat 200))).1 = none := by
    unfold Update
    simp only [hf, if_true]
  refine ⟨?_, hu, ?_⟩
  · intro h
    rcases h.mp hf with h0 | ⟨s, hs, -, h2⟩
    · rw [hi] at h0; exact Option.noConfusion h0
    · rw [hi] at hs
      simp only [Option.some.injEq] at hs
      rw [← hs] at h2
      exact absurd h2 (by decide)
  · rw [hu]; exact fun h => Option.noConfusion h

/-- C6 (amended): `Update` takes the first-sample path (stores the snapshot and
returns no value) exactly when no prior snapshot exists for `pid` or the prior
snapshot's `procTime` or `systemTime` is zero; when a prior snapshot with both
times nonzero exists, the process time has not decreased and the system busy
time is strictly greater than the prior one, it returns
`clamp(100 * processTimeDelta / systemTimeDelta, 0, 100)`. -/
theorem Update_first_sample_policy (history : History) (pid : Nat) (pt : ProcessTimes)
    (st : SystemTimes) :
    (Update.firstSample (history.at pid) = true
        ↔ (history pid = none
            ∨ ∃ s, history pid = some s ∧ (s.procTime = 0 ∨ s.systemTime = 0)))
    ∧ (Update.firstSample (history.at pid) = true →
        Update history pid (some pt) (some st)
          = (none, history.assign pid
              { procTime := procTimeOf pt, systemTime := systemTimeOf st }))
    ∧ (∀ s, history pid = some s → s.procTime ≠ 0 → s.systemTime ≠ 0 →
        s.procTime ≤ procTimeOf pt → s.systemTime < systemTimeOf st →
        (Update history pid (some pt) (some st)).1
          = some (clamp (100 * (((procTimeOf pt : ℚ) - (s.procTime : ℚ))
                    / ((systemTimeOf st : ℚ) - (s.systemTime : ℚ)))) 0 100)) := by
  refine ⟨?_, ?_, ?_⟩
  · rw [Update.firstSample_iff]
    cases hh : history pid with
    | none => simp [History.at_of_none history pid hh]
    | some s => simp [History.at_of_some history pid s hh]
  · intro hf
    unfold Update
    simp only [hf, if_true]
  · intro s hs hp0 hs0 hple hslt
    have hplt := procTimeOf_lt pt
    have hstlt := systemTimeOf_lt st
    have hat := History.at_of_some history pid s hs
    have hf : Update.firstSample s = false := by
      simp [Update.firstSample, hp0, hs0]
    have e1 : u64sub (procTimeOf pt) s.procTime = procTimeOf pt - s.procTime := by
      unfold u64sub; omega
    have e2 : u64sub (systemTimeOf st) s.systemTime = systemTimeOf st - s.systemTime := by
      unfold u64sub; omega
    unfold Update
    simp only [hat, hf, e1, e2]
    rw [if_neg (by norm_num), if_neg (by norm_num; omega)]
    simp only [Nat.cast_sub hple, Nat.cast_sub (le_of_lt hslt)]
    norm_num
    congr 1
    ring

/-- C7, the code at the failing input: the stored snapshot is `(10, 100)` and
the new reading `(20, 50)` has a smaller system busy time; the unsigned
subtraction wraps to `2 ^ 64 - 50` and `Update` returns a percentage. -/
theorem Update_backwards_system_time :
    Update.firstSample (busyHistory.at 7) = false
    ∧ (busyHistory.at 7).systemTime = 100
    ∧ systemTimeOf (SystemTimes.ofNat 50) = 50
    ∧ (Update busyHistory 7 (some (ProcessTimes.ofNat 20)) (some (SystemTimes.ofNat 50))).1
        = some (1000 / (2 ^ 64 - 50)) := by
  have hp : procTimeOf (ProcessTimes.ofNat 20) = 20 := procTimeOf_ofNat 20 (by norm_num)
  have hs : systemTimeOf (SystemTimes.ofNat 50) = 50 := systemTimeOf_ofNat 50 (by norm_num)
  have hat : busyHistory.at 7 = { procTime := 10, systemTime := 100 } :=
    History.at_of_some _ _ _ (by simp [busyHistory, History.assign])
  refine ⟨by rw [hat]; rfl, by rw [hat], hs, ?_⟩
  unfold Update
  simp only [hp, hs, hat]
  norm_num [Update.firstSample, u64sub, clamp]

/-- The defect behind C7 in general: with a prior snapshot whose times are both
nonzero, a new system busy time smaller than the stored one still yields a
value. -/
theorem Update_backwards_returns_value (history : History) (pid : Nat) (pt : ProcessTimes)
    (st : SystemTimes) (s : CpuSnapshot) (hs : history pid = some s)
    (hp0 : s.procTime ≠ 0) (hs0 : s.systemTime ≠ 0) (hlt : systemTimeOf st < s.systemTime)
    (hb : s.systemTime < 2 ^ 64) :
    ∃ v, (Update history pid (some pt) (some st)).1 = some v := by
  have hat := History.at_of_some history pid s hs
  have hf : Update.firstSample s = false := by
    simp [Update.firstSample, hp0, hs0]
  have e2 : 0 < u64sub (systemTimeOf st) s.systemTime := by
    unfold u64sub; omega
  unfold Update
  simp only [hat, hf]
  rw [if_neg (by norm_num), if_neg (by norm_num; omega)]
  exact ⟨_, rfl⟩

/-! ## Theorems: the entropy computation -/

/-- The read loop counts the first bytes of the file up to the sample limit. -/
theorem ComputeEntropy.readLoop_eq (bytes : List Byte) (freq : Byte → Nat) (total : Nat)
    (h : total ≤ kEntropySampleBytes) :
    ComputeEntropy.readLoop bytes freq total
      = (fun b => freq b + (bytes.take (kEntropySampleBytes - total)).count b,
          total + (bytes.take (kEntropySampleBytes - total)).length) := by
  induction bytes generalizing freq total with
  | nil => simp [ComputeEntropy.readLoop]
  | cons byte rest ih =>
    unfold ComputeEntropy.readLoop
    by_cases hlt : total < kEntropySampleBytes
    · rw [if_pos hlt, ih _ _ hlt]
      obtain ⟨m, hm⟩ : ∃ m, kEntropySampleBytes - total = m + 1 := ⟨_, (Nat.succ_pred_eq_of_pos (Nat.sub_pos_of_lt hlt)).symm⟩
      have hm' : kEntropySampleBytes - (total + 1) = m := by omega
      rw [hm, hm', List.take_succ_cons]
      refine Prod.ext ?_ ?_
      · funext b
        by_cases hb : b = byte
        · subst hb; simp [List.count_cons]; omega
        · have hb' : ¬ byte = b := fun e => hb e.symm
          simp [List.count_cons, hb, hb']
      · simp only [List.length_cons]; omega
    · rw [if_neg hlt]
      have : kEntropySampleBytes - total = 0 := by omega
      simp [this]

theorem sum_count_eq_length (l : List Byte) : ∑ b : Byte, l.count b = l.length := by
  have := Multiset.sum_count_eq_card (s := Finset.univ) (m := (l : Multiset Byte))
    (fun a _ => Finset.mem_univ a)
  simpa using this

/-- The entropy loop as a sum over the 256 buckets. -/
theorem ComputeEntropy.entropyLoop_eq_sum (freq : Byte → Nat) (total : Nat) :
    ComputeEntropy.entropyLoop freq total
      = ∑ i : Byte, Real.negMulLog ((freq i : ℝ) / (total : ℝ)) / Real.log 2 := by
  have step : ∀ (l : List Byte) (a : ℝ),
      l.foldl (fun entropy i =>
          let count := freq i
          if count = 0 then entropy
          else
            let p : ℝ := (count : ℝ) / (total : ℝ)
            entropy - p * Real.logb 2 p) a
        = a + (l.map fun i => Real.negMulLog ((freq i : ℝ) / (total : ℝ)) / Real.log 2).sum := by
    intro l
    induction l with
    | nil => intro a; simp
    | cons i rest ih =>
      intro a
      rw [List.foldl_cons, ih, List.map_cons, List.sum_cons, ← add_assoc]
      congr 1
      by_cases h0 : freq i = 0
      · simp [h0]
      · simp only [h0, if_false, Real.negMulLog, Real.logb]
        ring
  unfold ComputeEntropy.entropyLoop
  rw [step, Fin.sum_univ_def]
  norm_num

theorem negMulLog_div_log_two_nonneg (x : ℝ) (h0 : 0 ≤ x) (h1 : x ≤ 1) :
    0 ≤ Real.negMulLog x / Real.log 2 :=
  div_nonneg (Real.negMulLog_nonneg h0 h1) (le_of_lt (Real.log_pos (by norm_num)))

/-- Shannon entropy of a distribution over 256 values is between 0 and 8 bits. -/
theorem entropy_sum_bounds (p : Byte → ℝ) (h0 : ∀ i, 0 ≤ p i) (hsum : ∑ i, p i = 1) :
    0 ≤ ∑ i, Real.negMulLog (p i) / Real.log 2
    ∧ ∑ i, Real.negMulLog (p i) / Real.log 2 ≤ 8 := by
  have hlog2 : 0 < Real.log 2 := Real.log_pos (by norm_num)
  have hle1 : ∀ i, p i ≤ 1 := by
    intro i
    rw [← hsum]
    exact Finset.single_le_sum (fun j _ => h0 j) (Finset.mem_univ i)
  constructor
  · exact Finset.sum_nonneg fun i _ => negMulLog_div_log_two_nonneg _ (h0 i) (hle1 i)
  · have jensen := Real.concaveOn_negMulLog.le_map_sum (t := Finset.univ)
      (w := fun _ : Byte => (1 / 256 : ℝ)) (p := p)
      (fun _ _ => by norm_num)
      (by rw [Finset.sum_const, Finset.card_univ, Fintype.card_fin]; norm_num)
      (fun i _ => h0 i)
    simp only [smul_eq_mul, ← Finset.mul_sum, hsum, mul_one] at jensen
    have hval : Real.negMulLog (1 / 256) = (1 / 256) * (8 * Real.log 2) := by
      have h256 : (256 : ℝ) = 2 ^ 8 := by norm_num
      rw [Real.negMulLog, one_div, Real.log_inv, h256, Real.log_pow]
      push_cast
      ring
    rw [hval] at jensen
    rw [← Finset.sum_div, div_le_iff₀ hlog2]
    linarith

/-- The histogram and entropy computation in closed form: the entropy of the
byte distribution of the sampled prefix. -/
theorem ComputeEntropy.ofBytes_eq (bytes : List Byte) :
    ComputeEntropy.ofBytes bytes
      = if (bytes.take kEntropySampleBytes).length = 0 then 0
        else ∑ i : Byte,
          Real.negMulLog (((bytes.take kEntropySampleBytes).count i : ℝ)
            / ((bytes.take kEntropySampleBytes).length : ℝ)) / Real.log 2 := by
  unfold ComputeEntropy.ofBytes
  rw [ComputeEntropy.readLoop_eq bytes _ 0 (Nat.zero_le _)]
  simp only [Nat.sub_zero, Nat.zero_add]
  by_cases h : (bytes.take kEntropySampleBytes).length = 0
  · rw [if_pos h, if_pos h]; norm_num
  · rw [if_neg h, if_neg h, ComputeEntropy.entropyLoop_eq_sum]

/-- C8: over the real numbers the histogram/entropy computation of
`ComputeEntropy` gives a result in `[0, 8]` for every byte sequence; `0` for
every sequence of nonzero length consisting only of zero bytes; and `8` for
every sequence, of length within the sample limit, in which each of the 256
byte values occurs equally often (`k > 0` times each). -/
theorem ComputeEntropy_ofBytes_range (bytes : List Byte) :
    (0 ≤ ComputeEntropy.ofBytes bytes ∧ ComputeEntropy.ofBytes bytes ≤ 8)
    ∧ (bytes ≠ [] → (∀ b ∈ bytes, b = 0) → ComputeEntropy.ofBytes bytes = 0)
    ∧ (∀ k : Nat, 0 < k → bytes.length ≤ kEntropySampleBytes →
        (∀ v : Byte, bytes.count v = k) → ComputeEntropy.ofBytes bytes = 8) := by
  have hlog2 : 0 < Real.log 2 := Real.log_pos (by norm_num)
  rw [ComputeEntropy.ofBytes_eq]
  generalize hs : bytes.take kEntropySampleBytes = s
  refine ⟨?_, ?_, ?_⟩
  · by_cases h : s.length = 0
    · rw [if_pos h]; norm_num
    · rw [if_neg h]
      have hpos : (0 : ℝ) < (s.length : ℝ) := by
        exact_mod_cast Nat.pos_of_ne_zero h
      apply entropy_sum_bounds (fun i => (s.count i : ℝ) / (s.length : ℝ))
      · intro i; positivity
      · rw [← Finset.sum_div, ← Nat.cast_sum, sum_count_eq_length]
        exact div_self (ne_of_gt hpos)
  · intro hne hzero
    have hsne : s ≠ [] := by
      rw [← hs]
      cases bytes with
      | nil => exact absurd rfl hne
      | cons b rest => simp [kEntropySampleBytes]
    have hszero : ∀ b ∈ s, b = 0 := fun b hb =>
      hzero b (List.mem_of_mem_take (hs ▸ hb))
    have hlen : s.length ≠ 0 := fun h => hsne (List.length_eq_zero.mp h)
    have hpos : (0 : ℝ) < (s.length : ℝ) := by
      exact_mod_cast Nat.pos_of_ne_zero hlen
    rw [if_neg hlen]
    apply Finset.sum_eq_zero
    intro i _
    by_cases hi : i = 0
    · have hc : s.count i = s.length := by
        rw [List.count_eq_length]
        intro b hb
        rw [hi, hszero b hb]
      rw [hc, div_self (ne_of_gt hpos)]
      simp
    · have hc : s.count i = 0 := by
        rw [List.count_eq_zero]
        intro hmem
        exact hi (hszero i hmem)
      rw [hc]
      simp
  · intro k hk hlen hcount
    have hsb : s = bytes := by
      rw [← hs]; exact List.take_of_length_le hlen
    rw [hsb]
    have htotal : bytes.length = 256 * k := by
      rw [← sum_count_eq_length]
      simp only [hcount, Finset.sum_const, Finset.card_univ, Fintype.card_fin, smul_eq_mul]
    have hne : bytes.length ≠ 0 := by omega
    rw [if_neg hne]
    have hk' : (k : ℝ) ≠ 0 := by exact_mod_cast (Nat.pos_iff_ne_zero.mp hk)
    have hp : ∀ i : Byte, ((bytes.count i : ℝ) / (bytes.length : ℝ)) = 1 / 256 := by
      intro i
      rw [hcount i, htotal]
      push_cast
      field_simp
      ring
    have hval : Real.negMulLog (1 / 256) = (1 / 256) * (8 * Real.log 2) := by
      have h256 : (256 : ℝ) = 2 ^ 8 := by norm_num
      rw [Real.negMulLog, one_div, Real.log_inv, h256, Real.log_pow]
      push_cast
      ring
    simp only [hp, hval, Finset.sum_const, Finset.card_univ, Fintype.card_fin, nsmul_eq_mul]
    field_simp
    ring

/-- The three zero bytes have entropy `0`, and the 256 byte values once each
have entropy `8`. -/
theorem ComputeEntropy_ofBytes_examples :
    ComputeEntropy.ofBytes [0, 0, 0] = 0
    ∧ ComputeEntropy.ofBytes (List.finRange 256) = 8 :=
  ⟨(ComputeEntropy_ofBytes_range [0, 0, 0]).2.1 (by simp) (by simp),
   (ComputeEntropy_ofBytes_range (List.finRange 256)).2.2 1 Nat.one_pos
     (by rw [List.length_finRange]; norm_num [kEntropySampleBytes])
     (fun v => List.count_eq_one_of_mem (List.nodup_finRange 256) (List.mem_finRange v))⟩

/-! ## Theorems: the entropy and trust caches -/

theorem Cache.find_assign {V : Type} (cache : Cache V) (path : String) (value : V) :
    (cache.assign path value).find path = some value := by
  induction cache with
  | nil => simp [Cache.assign, Cache.find]
  | cons e rest ih =>
    obtain ⟨key, old⟩ := e
    by_cases h : key = path
    · simp [Cache.assign, Cache.find, h]
    · simp [Cache.assign, Cache.find, h, ih]

theorem Cache.assign_of_find_none {V : Type} (cache : Cache V) (path : String) (value : V)
    (h : cache.find path = none) : cache.assign path value = cache ++ [(path, value)] := by
  induction cache with
  | nil => rfl
  | cons e rest ih =>
    obtain ⟨key, old⟩ := e
    by_cases hk : key = path
    · simp [Cache.find, hk] at h
    · simp only [Cache.find, hk, if_false] at h
      simp only [Cache.assign, hk, if_false, ih h, List.cons_append]

theorem Cache.size_assign_le {V : Type} (cache : Cache V) (path : String) (value : V) :
    (cache.assign path value).size ≤ cache.size + 1 := by
  induction cache with
  | nil => simp [Cache.assign, Cache.size]
  | cons e rest ih =>
    obtain ⟨key, old⟩ := e
    by_cases h : key = path
    · simp [Cache.assign, Cache.size, h]
    · simp only [Cache.size] at ih
      simp [Cache.assign, Cache.size, h, ih]

theorem Cache.find_eraseIdx_of_find_none {V : Type} (cache : Cache V) (path : String)
    (i : Nat) (h : cache.find path = none) : Cache.find (List.eraseIdx cache i) path = none := by
  induction cache generalizing i with
  | nil => simpa using h
  | cons e rest ih =>
    obtain ⟨key, old⟩ := e
    by_cases hk : key = path
    · simp [Cache.find, hk] at h
    · simp only [Cache.find, hk, if_false] at h
      cases i with
      | zero => simpa using h
      | succ i => simp only [List.eraseIdx_cons_succ, Cache.find, hk, if_false, ih i h]

/-- After the cache-insert step the path is cached with the stored value. -/
theorem Cache.find_store {V : Type} (cache : Cache V) (path : String) (value : V)
    (begin : Nat) : (cache.store path value begin).find path = some value := by
  unfold Cache.store
  exact Cache.find_assign _ _ _

/-- The cache-insert step keeps a cache within the limit. -/
theorem Cache.size_store_le {V : Type} (cache : Cache V) (path : String) (value : V)
    (begin : Nat) (h : cache.size ≤ kCacheLimit) :
    (cache.store path value begin).size ≤ kCacheLimit := by
  unfold Cache.store
  by_cases hfull : cache.size ≥ kCacheLimit ∧ (!cache.isEmpty) = true
  · simp only [hfull, and_self, if_true]
    have hpos : 0 < cache.size := by
      have := hfull.1
      simp only [kCacheLimit] at this
      omega
    have hlen : (cache.eraseBegin begin).size = cache.size - 1 := by
      simp only [Cache.eraseBegin, Cache.size]
      exact List.length_eraseIdx_of_lt (Nat.mod_lt _ hpos)
    have := Cache.size_assign_le (cache.eraseBegin begin) path value
    omega
  · rw [if_neg hfull]
    show (Cache.assign cache path value).size ≤ kCacheLimit
    have hlt : cache.size < kCacheLimit := by
      by_contra hge
      apply hfull
      refine ⟨not_lt.mp hge, ?_⟩
      have hpos : 0 < cache.size := by
        have := not_lt.mp hge
        simp only [kCacheLimit] at this
        omega
      cases cache with
      | nil => simp [Cache.size] at hpos
      | cons e rest => rfl
    have := Cache.size_assign_le cache path value
    omega

/-- The cache-insert step on a full cache for an absent path: one entry, the
one `begin()` designates, goes and the new entry is added. -/
theorem Cache.store_full {V : Type} (cache : Cache V) (path : String) (value : V)
    (begin : Nat) (hsize : cache.size = kCacheLimit) (habsent : cache.find path = none) :
    cache.store path value begin
        = List.eraseIdx cache (begin % kCacheLimit) ++ [(path, value)]
    ∧ (cache.store path value begin).size = kCacheLimit := by
  have hne : (!cache.isEmpty) = true := by
    cases cache with
    | nil => simp [Cache.size, kCacheLimit] at hsize
    | cons e rest => rfl
  have hst : cache.store path value begin
      = List.eraseIdx cache (begin % kCacheLimit) ++ [(path, value)] := by
    unfold Cache.store
    simp only [hsize, ge_iff_le, le_refl, hne, and_self, if_true, Cache.eraseBegin]
    exact Cache.assign_of_find_none _ _ _
      (Cache.find_eraseIdx_of_find_none cache path _ habsent)
  refine ⟨hst, ?_⟩
  rw [hst]
  simp only [Cache.size] at hsize ⊢
  rw [List.length_append, List.length_eraseIdx_of_lt (by
    rw [hsize]; exact Nat.mod_lt _ (by norm_num [kCacheLimit]))]
  simp [hsize, kCacheLimit]

theorem ComputeEntropy_size_le (cache : Cache ℝ) (path : String)
    (openFile : String → Option (List Byte)) (begin : Nat) (h : cache.size ≤ kCacheLimit) :
    (ComputeEntropy cache path openFile begin).cache.size ≤ kCacheLimit := by
  unfold ComputeEntropy
  cases cache.find path with
  | some cached => exact h
  | none =>
    cases openFile path with
    | none => exact h
    | some bytes =>
      simp only
      split_ifs
      · exact h
      · exact Cache.size_store_le _ _ _ _ h

theorem IsAuthenticodeSigned_size_le (cache : Cache Bool) (path : String)
    (WinVerifyTrust : String → Int) (begin : Nat) (h : cache.size ≤ kCacheLimit) :
    (IsAuthenticodeSigned cache path WinVerifyTrust begin).cache.size ≤ kCacheLimit := by
  unfold IsAuthenticodeSigned
  cases cache.find path with
  | some cached => exact h
  | none => exact Cache.size_store_le _ _ _ _ h

theorem runEntropyCalls_size_le (calls : List EntropyCall) (cache : Cache ℝ)
    (h : cache.size ≤ kCacheLimit) : (runEntropyCalls cache calls).size ≤ kCacheLimit := by
  induction calls generalizing cache with
  | nil => exact h
  | cons c rest ih => exact ih _ (ComputeEntropy_size_le cache c.path c.openFile c.begin h)

theorem runTrustCalls_size_le (calls : List TrustCall) (cache : Cache Bool)
    (h : cache.size ≤ kCacheLimit) : (runTrustCalls cache calls).size ≤ kCacheLimit := by
  induction calls generalizing cache with
  | nil => exact h
  | cons c rest ih =>
    exact ih _ (IsAuthenticodeSigned_size_le cache c.path c.WinVerifyTrust c.begin h)

/-- The bytes `readLoop` counts are at least one when the file is not empty. -/
theorem ComputeEntropy.readLoop_total_pos (bytes : List Byte) (h : bytes ≠ []) :
    (ComputeEntropy.readLoop bytes (fun _ => 0) 0).2 ≠ 0 := by
  have mono : ∀ (l : List Byte) (freq : Byte → Nat) (total : Nat),
      total ≤ (ComputeEntropy.readLoop l freq total).2 := by
    intro l
    induction l with
    | nil => intro freq total; exact le_refl _
    | cons b rest ih =>
      intro freq total
      unfold ComputeEntropy.readLoop
      split_ifs
      · exact le_trans (Nat.le_succ _) (ih _ _)
      · exact le_refl _
  cases bytes with
  | nil => exact absurd rfl h
  | cons b rest =>
    unfold ComputeEntropy.readLoop
    rw [if_pos (by norm_num [kEntropySampleBytes])]
    have := mono rest (fun c => if c = b then (fun _ => 0) c + 1 else (fun _ => 0) c) (0 + 1)
    omega

theorem IsAuthenticodeSigned_find (cache : Cache Bool) (path : String)
    (WinVerifyTrust : String → Int) (begin : Nat) :
    (IsAuthenticodeSigned cache path WinVerifyTrust begin).cache.find path
      = some (IsAuthenticodeSigned cache path WinVerifyTrust begin).value := by
  unfold IsAuthenticodeSigned
  cases h : cache.find path with
  | some cached => exact h
  | none => exact Cache.find_store _ _ _ _

/-- A `ComputeEntropy` call that misses the cache and reads at least one byte
stores and returns the entropy of the bytes. -/
theorem ComputeEntropy_miss (cache : Cache ℝ) (path : String)
    (openFile : String → Option (List Byte)) (begin : Nat) (bytes : List Byte)
    (hmiss : cache.find path = none) (hopen : openFile path = some bytes)
    (hread : bytes ≠ []) :
    ComputeEntropy cache path openFile begin
      = { value := ComputeEntropy.ofBytes bytes
          cache := cache.store path (ComputeEntropy.ofBytes bytes) begin
          providerCalls := 1 } := by
  have hpos := ComputeEntropy.readLoop_total_pos bytes hread
  unfold ComputeEntropy ComputeEntropy.ofBytes
  simp only [hmiss, hopen]
  generalize ComputeEntropy.readLoop bytes (fun _ => 0) 0 = r at hpos
  obtain ⟨freq, total⟩ := r
  simp only at hpos ⊢
  rw [if_neg hpos, if_neg hpos]

theorem ComputeEntropy_find (cache : Cache ℝ) (path : String)
    (openFile : String → Option (List Byte)) (begin : Nat) (bytes : List Byte)
    (hopen : openFile path = some bytes) (hread : bytes ≠ []) :
    (ComputeEntropy cache path openFile begin).cache.find path
      = some (ComputeEntropy cache path openFile begin).value := by
  cases h : cache.find path with
  | some cached =>
    unfold ComputeEntropy
    rw [h]
    exact h
  | none =>
    rw [ComputeEntropy_miss cache path openFile begin bytes h hopen hread]
    exact Cache.find_store _ _ _ _

theorem IsAuthenticodeSigned_hit (cache : Cache Bool) (path : String)
    (WinVerifyTrust : String → Int) (begin : Nat) (cached : Bool)
    (h : cache.find path = some cached) :
    IsAuthenticodeSigned cache path WinVerifyTrust begin
      = { value := cached, cache := cache, providerCalls := 0 } := by
  unfold IsAuthenticodeSigned
  rw [h]

theorem ComputeEntropy_hit (cache : Cache ℝ) (path : String)
    (openFile : String → Option (List Byte)) (begin : Nat) (cached : ℝ)
    (h : cache.find path = some cached) :
    ComputeEntropy cache path openFile begin
      = { value := cached, cache := cache, providerCalls := 0 } := by
  unfold ComputeEntropy
  rw [h]

theorem Cache.find_eq_none_of_forall_ne {V : Type} (cache : Cache V) (path : String)
    (h : ∀ e ∈ cache, e.1 ≠ path) : cache.find path = none := by
  induction cache with
  | nil => rfl
  | cons e rest ih =>
    obtain ⟨key, value⟩ := e
    have hk : key ≠ path := h (key, value) (List.mem_cons_self _ _)
    simp only [Cache.find, hk, if_false]
    exact ih fun e he => h e (List.mem_cons_of_mem _ he)

/-- Below the limit the cache-insert step adds the entry of an absent path. -/
theorem Cache.store_below_limit {V : Type} (cache : Cache V) (path : String) (value : V)
    (begin : Nat) (hsize : cache.size < kCacheLimit) (habsent : cache.find path = none) :
    cache.store path value begin = cache ++ [(path, value)] := by
  unfold Cache.store
  rw [if_neg (fun h => absurd h.1 (not_le.mpr hsize))]
  exact Cache.assign_of_find_none cache path value habsent

theorem runTrustCalls_append (cache : Cache Bool) (l₁ l₂ : List TrustCall) :
    runTrustCalls cache (l₁ ++ l₂) = runTrustCalls (runTrustCalls cache l₁) l₂ := by
  induction l₁ generalizing cache with
  | nil => rfl
  | cons c rest ih => exact ih _

theorem fillPath_injective {i j : Nat} (h : fillPath i = fillPath j) : i = j := by
  have := congrArg String.length h
  simpa [fillPath, String.length] using this

/-- Verifying `n ≤ 512` distinct files from an empty cache caches all of them. -/
theorem runTrustCalls_fillCalls (n : Nat) (hn : n ≤ kCacheLimit) :
    runTrustCalls Cache.empty (fillCalls n)
      = (List.range n).map fun i => (fillPath i, true) := by
  induction n with
  | zero => rfl
  | succ n ih =>
    have ih' := ih (Nat.le_of_succ_le hn)
    have habsent : Cache.find ((List.range n).map fun i => (fillPath i, true)) (fillPath n)
        = none := by
      apply Cache.find_eq_none_of_forall_ne
      intro e he
      obtain ⟨i, hi, rfl⟩ := List.mem_map.mp he
      intro heq
      have := fillPath_injective heq
      have := List.mem_range.mp hi
      omega
    have hsize : Cache.size ((List.range n).map fun i => (fillPath i, true)) < kCacheLimit := by
      simp only [Cache.size, List.length_map, List.length_range]
      omega
    unfold fillCalls at ih' ⊢
    rw [List.range_succ, List.map_append, runTrustCalls_append, ih', List.map_append]
    simp only [List.map_cons, List.map_nil, runTrustCalls, IsAuthenticodeSigned, habsent]
    rw [Cache.store_below_limit _ _ _ _ hsize habsent]
    rfl

theorem fullTrustCache_eq :
    fullTrustCache = (List.range 512).map fun i => (fillPath i, true) :=
  runTrustCalls_fillCalls 512 (le_refl _)

theorem fullTrustCache_size : fullTrustCache.size = 512 := by
  rw [fullTrustCache_eq]
  simp [Cache.size]

theorem fullTrustCache_find_empty_path : fullTrustCache.find "" = none := by
  rw [fullTrustCache_eq]
  apply Cache.find_eq_none_of_forall_ne
  intro e he
  obtain ⟨i, -, rfl⟩ := List.mem_map.mp he
  intro heq
  have := congrArg String.length heq
  simp [fillPath, String.length] at this

/-- C9: starting from an empty cache, after any finite sequence of
`ComputeEntropy` / `IsAuthenticodeSigned` calls the respective cache holds at
most 512 entries; and a call that inserts into a cache holding exactly 512
entries, for a path not yet present, removes exactly one previously present
entry, adds the new one and leaves the size at 512. -/
theorem cache_size_bounded :
    (∀ calls : List EntropyCall, (runEntropyCalls Cache.empty calls).size ≤ 512)
    ∧ (∀ calls : List TrustCall, (runTrustCalls Cache.empty calls).size ≤ 512)
    ∧ (∀ (cache : Cache ℝ) (path : String) (openFile : String → Option (List Byte))
        (begin : Nat) (bytes : List Byte),
        cache.size = 512 → cache.find path = none →
        openFile path = some bytes → bytes ≠ [] →
        (ComputeEntropy cache path openFile begin).cache.size = 512
        ∧ ∃ i, i < cache.size
            ∧ (ComputeEntropy cache path openFile begin).cache
                = List.eraseIdx cache i
                    ++ [(path, (ComputeEntropy cache path openFile begin).value)])
    ∧ (∀ (cache : Cache Bool) (path : String) (WinVerifyTrust : String → Int)
        (begin : Nat),
        cache.size = 512 → cache.find path = none →
        (IsAuthenticodeSigned cache path WinVerifyTrust begin).cache.size = 512
        ∧ ∃ i, i < cache.size
            ∧ (IsAuthenticodeSigned cache path WinVerifyTrust begin).cache
                = List.eraseIdx cache i
                    ++ [(path, (IsAuthenticodeSigned cache path WinVerifyTrust begin).value)]) := by
  have h0 : ∀ V : Type, (Cache.empty : Cache V).size ≤ kCacheLimit := by
    intro V; simp [Cache.empty, Cache.size]
  refine ⟨fun calls => runEntropyCalls_size_le calls _ (h0 ℝ),
    fun calls => runTrustCalls_size_le calls _ (h0 Bool), ?_, ?_⟩
  · intro cache path openFile begin bytes hsize habsent hopen hread
    have hst := fun v => Cache.store_full cache path v begin hsize habsent
    have hlt : begin % kCacheLimit < cache.size := by
      rw [hsize]; exact Nat.mod_lt _ (by norm_num [kCacheLimit])
    rw [ComputeEntropy_miss cache path openFile begin bytes habsent hopen hread]
    exact ⟨(hst _).2, begin % kCacheLimit, hlt, (hst _).1⟩
  · intro cache path WinVerifyTrust begin hsize habsent
    have hst := fun v => Cache.store_full cache path v begin hsize habsent
    have hlt : begin % kCacheLimit < cache.size := by
      rw [hsize]; exact Nat.mod_lt _ (by norm_num [kCacheLimit])
    unfold IsAuthenticodeSigned
    simp only [habsent]
    exact ⟨(hst _).2, begin % kCacheLimit, hlt, (hst _).1⟩

/-- C9 at a cache filled from empty by 512 calls: the next call for a new
path evicts one entry and leaves 512. -/
theorem cache_size_bounded_witness :
    (IsAuthenticodeSigned fullTrustCache "" (fun _ => ERROR_SUCCESS) 3).cache.size = 512
    ∧ ∃ i, i < fullTrustCache.size
        ∧ (IsAuthenticodeSigned fullTrustCache "" (fun _ => ERROR_SUCCESS) 3).cache
            = List.eraseIdx fullTrustCache i
                ++ [("", (IsAuthenticodeSigned fullTrustCache ""
                      (fun _ => ERROR_SUCCESS) 3).value)] :=
  cache_size_bounded.2.2.2 fullTrustCache "" (fun _ => ERROR_SUCCESS) 3
    fullTrustCache_size fullTrustCache_find_empty_path

/-- C10: for every cache state and path, after one `IsAuthenticodeSigned(path)`
call, or one `ComputeEntropy(path)` call on a file of at least one byte, an
immediately following call for the same path returns the identical value,
makes no provider call and leaves the cache as it is, whatever the provider
would now answer. -/
theorem second_call_is_cache_hit :
    (∀ (cache : Cache Bool) (path : String) (verify₁ verify₂ : String → Int)
        (begin₁ begin₂ : Nat),
        (IsAuthenticodeSigned (IsAuthenticodeSigned cache path verify₁ begin₁).cache
            path verify₂ begin₂)
          = { value := (IsAuthenticodeSigned cache path verify₁ begin₁).value
              cache := (IsAuthenticodeSigned cache path verify₁ begin₁).cache
              providerCalls := 0 })
    ∧ (∀ (cache : Cache ℝ) (path : String) (open₁ open₂ : String → Option (List Byte))
        (begin₁ begin₂ : Nat) (bytes : List Byte),
        open₁ path = some bytes → bytes ≠ [] →
        (ComputeEntropy (ComputeEntropy cache path open₁ begin₁).cache path open₂ begin₂)
          = { value := (ComputeEntropy cache path open₁ begin₁).value
              cache := (ComputeEntropy cache path open₁ begin₁).cache
              providerCalls := 0 }) := by
  refine ⟨?_, ?_⟩
  · intro cache path verify₁ verify₂ begin₁ begin₂
    exact IsAuthenticodeSigned_hit _ _ _ _ _ (IsAuthenticodeSigned_find cache path verify₁ begin₁)
  · intro cache path open₁ open₂ begin₁ begin₂ bytes hopen hread
    exact ComputeEntropy_hit _ _ _ _ _
      (ComputeEntropy_find cache path open₁ begin₁ bytes hopen hread)

end Guardian
